import Mathlib

/-!
Verification of the 3D-with-JavaScript canvas demo (`src/index.js`).

The program keeps a mesh of 3D nodes and edges, rotates it about the X and Y
axes in response to mouse drags, and draws it with an orthographic projection
(z discarded) onto a 2D canvas.  Coordinates are modelled over the reals;
canvas calls are modelled as a trace of draw commands, and the mousemove
handler as a state transformer that also emits a trace of its effects.
-/

namespace ThreeD

/-- A 3D point, as in the `Node` class of `src/index.js`. -/
@[ext]
structure Node where
  x : ℝ
  y : ℝ
  z : ℝ

/-- An `Edge` in `src/index.js` holds references `node1`, `node2` to node
objects that alias entries of the owning mesh's node array; we model the
references as indices into that array. -/
structure Edge where
  node1 : ℕ
  node2 : ℕ

/-- The `Mesh` class: a node array and an edge array. -/
@[ext]
structure Mesh where
  nodes : List Node
  edges : List Edge

/-- `var PIXELS_PER_UNIT = 100`. -/
def PIXELS_PER_UNIT : ℝ := 100

/-- `var NODE_SIZE = 3`. -/
def NODE_SIZE : ℝ := 3

/-- A canvas draw call: `circle(x, y, radius)` or `line(x1, y1, x2, y2)`. -/
inductive DrawCmd
  | circle (x y radius : ℝ)
  | line (x1 y1 x2 y2 : ℝ)

/-- Whether a draw call is a line call. -/
def DrawCmd.isLine : DrawCmd → Bool
  | .line _ _ _ _ => true
  | _ => false

/-- Whether a draw call is a circle call. -/
def DrawCmd.isCircle : DrawCmd → Bool
  | .circle _ _ _ => true
  | _ => false

/-- `Node.draw`: `circle(this.x * PIXELS_PER_UNIT, this.y * PIXELS_PER_UNIT, NODE_SIZE)`. -/
noncomputable def Node.draw (n : Node) : DrawCmd :=
  .circle (n.x * PIXELS_PER_UNIT) (n.y * PIXELS_PER_UNIT) NODE_SIZE

/-- `Edge.draw`: a line between the two referenced nodes, each coordinate scaled
by `PIXELS_PER_UNIT`.  The reference is resolved in the node store; a dangling
reference (impossible in the program, whose edges are built from the node
array) resolves to the origin. -/
noncomputable def Edge.draw (nodes : List Node) (e : Edge) : DrawCmd :=
  let n1 := nodes.getD e.node1 ⟨0, 0, 0⟩
  let n2 := nodes.getD e.node2 ⟨0, 0, 0⟩
  .line (n1.x * PIXELS_PER_UNIT) (n1.y * PIXELS_PER_UNIT)
    (n2.x * PIXELS_PER_UNIT) (n2.y * PIXELS_PER_UNIT)

/-- The first loop of `Mesh.draw`: `for (i...) this.edges[i].draw()`. -/
noncomputable def drawEdgesLoop (nodes : List Node) : List Edge → List DrawCmd
  | [] => []
  | e :: es => Edge.draw nodes e :: drawEdgesLoop nodes es

/-- The second loop of `Mesh.draw`: `for (i...) this.nodes[i].draw()`. -/
noncomputable def drawNodesLoop : List Node → List DrawCmd
  | [] => []
  | n :: ns => Node.draw n :: drawNodesLoop ns

/-- `Mesh.draw`: all edges, in order, then all nodes, in order. -/
noncomputable def Mesh.draw (m : Mesh) : List DrawCmd :=
  drawEdgesLoop m.nodes m.edges ++ drawNodesLoop m.nodes

/-- The body of the `rotateY` loop for one node:
`x2 = x*cos(theta) - z*sin(theta); z2 = z*cos(theta) + x*sin(theta)`,
both computed before either field is written. -/
noncomputable def rotYPoint (θ : ℝ) (n : Node) : Node :=
  let x2 := n.x * Real.cos θ - n.z * Real.sin θ
  let z2 := n.z * Real.cos θ + n.x * Real.sin θ
  { n with x := x2, z := z2 }

/-- The `rotateY` loop over the node array. -/
noncomputable def rotYLoop (θ : ℝ) : List Node → List Node
  | [] => []
  | n :: ns => rotYPoint θ n :: rotYLoop θ ns

/-- `Mesh.rotateY(theta)`. -/
noncomputable def Mesh.rotateY (θ : ℝ) (m : Mesh) : Mesh :=
  { m with nodes := rotYLoop θ m.nodes }

/-- The body of the `rotateX` loop for one node:
`z2 = z*cos(theta) - y*sin(theta); y2 = y*cos(theta) + z*sin(theta)`,
both computed before either field is written. -/
noncomputable def rotXPoint (θ : ℝ) (n : Node) : Node :=
  let z2 := n.z * Real.cos θ - n.y * Real.sin θ
  let y2 := n.y * Real.cos θ + n.z * Real.sin θ
  { n with z := z2, y := y2 }

/-- The `rotateX` loop over the node array. -/
noncomputable def rotXLoop (θ : ℝ) : List Node → List Node
  | [] => []
  | n :: ns => rotXPoint θ n :: rotXLoop θ ns

/-- `Mesh.rotateX(theta)`. -/
noncomputable def Mesh.rotateX (θ : ℝ) (m : Mesh) : Mesh :=
  { m with nodes := rotXLoop θ m.nodes }

/-- Euclidean distance between two nodes. -/
noncomputable def dist3 (p q : Node) : ℝ :=
  Real.sqrt ((p.x - q.x) ^ 2 + (p.y - q.y) ^ 2 + (p.z - q.z) ^ 2)

/-- One rotation call, for reasoning about arbitrary call sequences. -/
inductive RotOp
  | rx (θ : ℝ)
  | ry (θ : ℝ)

/-- Apply one rotation call to a mesh. -/
noncomputable def applyOp (op : RotOp) (m : Mesh) : Mesh :=
  match op with
  | .rx θ => Mesh.rotateX θ m
  | .ry θ => Mesh.rotateY θ m

/-- Apply a sequence of rotation calls, first element first. -/
noncomputable def applyOps : List RotOp → Mesh → Mesh
  | [], m => m
  | op :: ops, m => applyOps ops (applyOp op m)

/-- The mutable top-level state of the script: `MOUSE_IS_PRESSED`,
`pMousePos`, and the mesh `cube3D`. -/
structure AppState where
  MOUSE_IS_PRESSED : Bool
  pMousePos : ℝ × ℝ
  cube3D : Mesh

/-- One observable effect of the mousemove handler: a rotation call on the
mesh, a `clearRect` on the canvas, or a draw call issued by the redraw. -/
inductive Effect
  | rotateYCall (θ : ℝ)
  | rotateXCall (θ : ℝ)
  | clearRect
  | emit (c : DrawCmd)

/-- The `mousemove` listener: computes the pointer delta, and if the mouse is
pressed rotates the mesh by `diffX·π/180` about Y then `diffY·π/180` about X,
clears the canvas and redraws; in every case it then stores the current
pointer position into `pMousePos`.  Returns the new state and the trace of
effects. -/
noncomputable def mousemove (mousePos : ℝ × ℝ) (s : AppState) : AppState × List Effect :=
  let diffX := mousePos.1 - s.pMousePos.1
  let diffY := mousePos.2 - s.pMousePos.2
  if s.MOUSE_IS_PRESSED then
    let m2 := Mesh.rotateX (diffY * (Real.pi / 180))
      (Mesh.rotateY (diffX * (Real.pi / 180)) s.cube3D)
    ({ s with cube3D := m2, pMousePos := mousePos },
      Effect.rotateYCall (diffX * (Real.pi / 180)) ::
      Effect.rotateXCall (diffY * (Real.pi / 180)) ::
      Effect.clearRect :: (Mesh.draw m2).map Effect.emit)
  else
    ({ s with pMousePos := mousePos }, [])

/-- The `mousedown` listener: `MOUSE_IS_PRESSED = true`. -/
def mousedown (s : AppState) : AppState :=
  { s with MOUSE_IS_PRESSED := true }

/-- The `mouseup` listener: `MOUSE_IS_PRESSED = false`. -/
def mouseup (s : AppState) : AppState :=
  { s with MOUSE_IS_PRESSED := false }

/-! ### Helper lemmas -/

/-- The `rotateY` loop is a pointwise map over the node array. -/
theorem rotYLoop_eq_map (θ : ℝ) (l : List Node) : rotYLoop θ l = l.map (rotYPoint θ) := by
  induction l with
  | nil => rfl
  | cons n ns ih => simp [rotYLoop, ih]

/-- The `rotateX` loop is a pointwise map over the node array. -/
theorem rotXLoop_eq_map (θ : ℝ) (l : List Node) : rotXLoop θ l = l.map (rotXPoint θ) := by
  induction l with
  | nil => rfl
  | cons n ns ih => simp [rotXLoop, ih]

/-- Reading an in-bounds index through a map, with any defaults. -/
theorem getD_map_lt (f : Node → Node) :
    ∀ (l : List Node) (i : ℕ), i < l.length → ∀ d d', (l.map f).getD i d = f (l.getD i d')
  | [], i, h, _, _ => absurd h (by simp)
  | _ :: _, 0, _, _, _ => rfl
  | _ :: ns, i + 1, h, d, d' => getD_map_lt f ns i (by simpa using h) d d'

/-! ### C1: rotateY pointwise behaviour -/

/-- Claim C1: `rotateY(theta)` maps every node of the mesh so that the new x is
`x·cos θ − z·sin θ` and the new z is `z·cos θ + x·sin θ`, both computed from the
node's prior coordinates, while y is unchanged. -/
theorem rotateY_pointwise (m : Mesh) (θ : ℝ) (i : ℕ) (hi : i < m.nodes.length) :
    ((Mesh.rotateY θ m).nodes.getD i ⟨0, 0, 0⟩).x
        = (m.nodes.getD i ⟨0, 0, 0⟩).x * Real.cos θ - (m.nodes.getD i ⟨0, 0, 0⟩).z * Real.sin θ
      ∧ ((Mesh.rotateY θ m).nodes.getD i ⟨0, 0, 0⟩).y = (m.nodes.getD i ⟨0, 0, 0⟩).y
      ∧ ((Mesh.rotateY θ m).nodes.getD i ⟨0, 0, 0⟩).z
        = (m.nodes.getD i ⟨0, 0, 0⟩).z * Real.cos θ + (m.nodes.getD i ⟨0, 0, 0⟩).x * Real.sin θ := by
  have h : (Mesh.rotateY θ m).nodes = m.nodes.map (rotYPoint θ) := by
    simp [Mesh.rotateY, rotYLoop_eq_map]
  rw [h, getD_map_lt (rotYPoint θ) m.nodes i hi ⟨0, 0, 0⟩ ⟨0, 0, 0⟩]
  exact ⟨rfl, rfl, rfl⟩

/-- Witness for C1, on the one-node mesh holding (1, 2, 3) and angle 1. -/
theorem rotateY_pointwise_witness :
    ((Mesh.rotateY 1 ⟨[⟨1, 2, 3⟩], []⟩).nodes.getD 0 ⟨0, 0, 0⟩).x
        = (([⟨1, 2, 3⟩] : List Node).getD 0 ⟨0, 0, 0⟩).x * Real.cos 1
            - (([⟨1, 2, 3⟩] : List Node).getD 0 ⟨0, 0, 0⟩).z * Real.sin 1
      ∧ ((Mesh.rotateY 1 ⟨[⟨1, 2, 3⟩], []⟩).nodes.getD 0 ⟨0, 0, 0⟩).y
        = (([⟨1, 2, 3⟩] : List Node).getD 0 ⟨0, 0, 0⟩).y
      ∧ ((Mesh.rotateY 1 ⟨[⟨1, 2, 3⟩], []⟩).nodes.getD 0 ⟨0, 0, 0⟩).z
        = (([⟨1, 2, 3⟩] : List Node).getD 0 ⟨0, 0, 0⟩).z * Real.cos 1
            + (([⟨1, 2, 3⟩] : List Node).getD 0 ⟨0, 0, 0⟩).x * Real.sin 1 :=
  rotateY_pointwise ⟨[⟨1, 2, 3⟩], []⟩ 1 0 (by simp)

/-! ### C2: rotateX pointwise behaviour -/

/-- Claim C2 (amended): `rotateX(theta)` maps every node of the mesh so that the
new z is `z·cos θ − y·sin θ` and the new y is `y·cos θ + z·sin θ`, both computed
from the node's prior coordinates, while x is unchanged.  With these equations a
single point at (0, 1, 0) is moved by `rotateX(π/2)` to (0, 0, −1), not to
(0, 0, 1) as the original claim's scenario asserts. -/
theorem rotateX_pointwise (m : Mesh) (θ : ℝ) (i : ℕ) (hi : i < m.nodes.length) :
    ((Mesh.rotateX θ m).nodes.getD i ⟨0, 0, 0⟩).z
        = (m.nodes.getD i ⟨0, 0, 0⟩).z * Real.cos θ - (m.nodes.getD i ⟨0, 0, 0⟩).y * Real.sin θ
      ∧ ((Mesh.rotateX θ m).nodes.getD i ⟨0, 0, 0⟩).y
        = (m.nodes.getD i ⟨0, 0, 0⟩).y * Real.cos θ + (m.nodes.getD i ⟨0, 0, 0⟩).z * Real.sin θ
      ∧ ((Mesh.rotateX θ m).nodes.getD i ⟨0, 0, 0⟩).x = (m.nodes.getD i ⟨0, 0, 0⟩).x := by
  have h : (Mesh.rotateX θ m).nodes = m.nodes.map (rotXPoint θ) := by
    simp [Mesh.rotateX, rotXLoop_eq_map]
  rw [h, getD_map_lt (rotXPoint θ) m.nodes i hi ⟨0, 0, 0⟩ ⟨0, 0, 0⟩]
  exact ⟨rfl, rfl, rfl⟩

/-- Counterexample for C2 as stated: on the one-node mesh holding (0, 1, 0),
`rotateX(π/2)` does not produce the point (0, 0, 1); it produces (0, 0, −1). -/
theorem rotateX_scenario_cex :
    (Mesh.rotateX (Real.pi / 2) ⟨[⟨0, 1, 0⟩], []⟩).nodes.getD 0 ⟨0, 0, 0⟩
      ≠ (⟨0, 0, 1⟩ : Node) := by
  intro h
  have hz := congrArg Node.z h
  simp [Mesh.rotateX, rotXLoop, rotXPoint, Real.cos_pi_div_two, Real.sin_pi_div_two] at hz
  norm_num at hz

/-- Witness for C2 (amended): the corrected scenario.  On the one-node mesh
holding (0, 1, 0), `rotateX(π/2)` produces exactly the point (0, 0, −1). -/
theorem rotateX_pointwise_witness :
    (Mesh.rotateX (Real.pi / 2) ⟨[⟨0, 1, 0⟩], []⟩).nodes.getD 0 ⟨0, 0, 0⟩
      = (⟨0, 0, -1⟩ : Node) := by
  obtain ⟨hz, hy, hx⟩ :=
    rotateX_pointwise ⟨[⟨0, 1, 0⟩], []⟩ (Real.pi / 2) 0 (by simp)
  ext
  · rw [hx]; simp [List.getD]
  · rw [hy]; simp [List.getD, Real.cos_pi_div_two, Real.sin_pi_div_two]
  · rw [hz]; simp [List.getD, Real.cos_pi_div_two, Real.sin_pi_div_two]

/-! ### C3: rigidity under arbitrary rotation sequences -/

/-- The action of one rotation call on a single node. -/
noncomputable def opPoint : RotOp → Node → Node
  | .rx θ => rotXPoint θ
  | .ry θ => rotYPoint θ

/-- The action of a rotation-call sequence on a single node, first call first. -/
noncomputable def opsPoint : List RotOp → Node → Node
  | [] => id
  | op :: ops => fun p => opsPoint ops (opPoint op p)

/-- One rotation call acts on the node array as a pointwise map. -/
theorem applyOp_nodes (op : RotOp) (m : Mesh) :
    (applyOp op m).nodes = m.nodes.map (opPoint op) := by
  cases op with
  | rx θ => simp [applyOp, Mesh.rotateX, rotXLoop_eq_map, opPoint]
  | ry θ => simp [applyOp, Mesh.rotateY, rotYLoop_eq_map, opPoint]

/-- A rotation-call sequence acts on the node array as a pointwise map. -/
theorem applyOps_nodes : ∀ (ops : List RotOp) (m : Mesh),
    (applyOps ops m).nodes = m.nodes.map (opsPoint ops)
  | [], m => by simp [applyOps, opsPoint]
  | op :: ops, m => by
    rw [applyOps, applyOps_nodes ops, applyOp_nodes, List.map_map]
    rfl

/-- `rotateY` preserves the distance between any two nodes. -/
theorem rotYPoint_dist3 (θ : ℝ) (p q : Node) :
    dist3 (rotYPoint θ p) (rotYPoint θ q) = dist3 p q := by
  have h := Real.sin_sq_add_cos_sq θ
  simp only [dist3, rotYPoint]
  congr 1
  linear_combination ((p.x - q.x) ^ 2 + (p.z - q.z) ^ 2) * h

/-- `rotateX` preserves the distance between any two nodes. -/
theorem rotXPoint_dist3 (θ : ℝ) (p q : Node) :
    dist3 (rotXPoint θ p) (rotXPoint θ q) = dist3 p q := by
  have h := Real.sin_sq_add_cos_sq θ
  simp only [dist3, rotXPoint]
  congr 1
  linear_combination ((p.y - q.y) ^ 2 + (p.z - q.z) ^ 2) * h

/-- Any rotation-call sequence preserves the distance between any two nodes. -/
theorem opsPoint_dist3 : ∀ (ops : List RotOp) (p q : Node),
    dist3 (opsPoint ops p) (opsPoint ops q) = dist3 p q
  | [], p, q => rfl
  | op :: ops, p, q => by
    rw [opsPoint, opsPoint_dist3 ops]
    cases op with
    | rx θ => exact rotXPoint_dist3 θ p q
    | ry θ => exact rotYPoint_dist3 θ p q

/-- Claim C3: for every mesh, every pair of node indices and every finite
sequence of `rotateX`/`rotateY` calls, the Euclidean distance between the two
nodes after the sequence equals the distance before. -/
theorem mesh_rigidity (m : Mesh) (ops : List RotOp) (i j : ℕ)
    (hi : i < m.nodes.length) (hj : j < m.nodes.length) :
    dist3 ((applyOps ops m).nodes.getD i ⟨0, 0, 0⟩) ((applyOps ops m).nodes.getD j ⟨0, 0, 0⟩)
      = dist3 (m.nodes.getD i ⟨0, 0, 0⟩) (m.nodes.getD j ⟨0, 0, 0⟩) := by
  rw [applyOps_nodes, getD_map_lt _ _ _ hi ⟨0, 0, 0⟩ ⟨0, 0, 0⟩,
    getD_map_lt _ _ _ hj ⟨0, 0, 0⟩ ⟨0, 0, 0⟩, opsPoint_dist3]

/-- Witness for C3: a two-node mesh and the call sequence
`rotateY(1); rotateX(2)`. -/
theorem mesh_rigidity_witness :
    dist3 ((applyOps [.ry 1, .rx 2] ⟨[⟨0, 0, 0⟩, ⟨1, 2, 3⟩], []⟩).nodes.getD 0 ⟨0, 0, 0⟩)
        ((applyOps [.ry 1, .rx 2] ⟨[⟨0, 0, 0⟩, ⟨1, 2, 3⟩], []⟩).nodes.getD 1 ⟨0, 0, 0⟩)
      = dist3 (([⟨0, 0, 0⟩, ⟨1, 2, 3⟩] : List Node).getD 0 ⟨0, 0, 0⟩)
        (([⟨0, 0, 0⟩, ⟨1, 2, 3⟩] : List Node).getD 1 ⟨0, 0, 0⟩) :=
  mesh_rigidity ⟨[⟨0, 0, 0⟩, ⟨1, 2, 3⟩], []⟩ [.ry 1, .rx 2] 0 1 (by simp) (by simp)

/-! ### C4: orthographic projection discards depth -/

/-- Claim C4: the draw coordinates of a node are exactly
(x·PIXELS_PER_UNIT, y·PIXELS_PER_UNIT), and likewise for each edge endpoint;
z is never read, so nodes that agree on x and y draw identically, and edges
whose resolved endpoints agree on x and y draw identically. -/
theorem draw_discards_depth :
    (∀ n : Node, Node.draw n
        = DrawCmd.circle (n.x * PIXELS_PER_UNIT) (n.y * PIXELS_PER_UNIT) NODE_SIZE)
    ∧ (∀ (ns : List Node) (e : Edge), Edge.draw ns e
        = DrawCmd.line ((ns.getD e.node1 ⟨0, 0, 0⟩).x * PIXELS_PER_UNIT)
            ((ns.getD e.node1 ⟨0, 0, 0⟩).y * PIXELS_PER_UNIT)
            ((ns.getD e.node2 ⟨0, 0, 0⟩).x * PIXELS_PER_UNIT)
            ((ns.getD e.node2 ⟨0, 0, 0⟩).y * PIXELS_PER_UNIT))
    ∧ (∀ n₁ n₂ : Node, n₁.x = n₂.x → n₁.y = n₂.y → Node.draw n₁ = Node.draw n₂)
    ∧ (∀ (ns ns' : List Node) (e : Edge),
        (ns.getD e.node1 ⟨0, 0, 0⟩).x = (ns'.getD e.node1 ⟨0, 0, 0⟩).x →
        (ns.getD e.node1 ⟨0, 0, 0⟩).y = (ns'.getD e.node1 ⟨0, 0, 0⟩).y →
        (ns.getD e.node2 ⟨0, 0, 0⟩).x = (ns'.getD e.node2 ⟨0, 0, 0⟩).x →
        (ns.getD e.node2 ⟨0, 0, 0⟩).y = (ns'.getD e.node2 ⟨0, 0, 0⟩).y →
        Edge.draw ns e = Edge.draw ns' e) := by
  refine ⟨fun n => rfl, fun ns e => rfl, ?_, ?_⟩
  · intro n₁ n₂ hx hy
    simp [Node.draw, hx, hy]
  · intro ns ns' e h1x h1y h2x h2y
    simp only [Edge.draw]
    rw [h1x, h1y, h2x, h2y]

/-- Witness for C4: the nodes (1, 2, 3) and (1, 2, 4) differ only in z and
produce the same draw call. -/
theorem draw_discards_depth_witness :
    Node.draw ⟨1, 2, 3⟩ = Node.draw ⟨1, 2, 4⟩ :=
  draw_discards_depth.2.2.1 ⟨1, 2, 3⟩ ⟨1, 2, 4⟩ rfl rfl

/-! ### C5: draw order (edges under, nodes over) -/

/-- The edge-drawing loop is a map over the edge array, in order. -/
theorem drawEdgesLoop_eq_map (ns : List Node) :
    ∀ es : List Edge, drawEdgesLoop ns es = es.map (Edge.draw ns)
  | [] => rfl
  | e :: es => by rw [drawEdgesLoop, drawEdgesLoop_eq_map ns es, List.map_cons]

/-- The node-drawing loop is a map over the node array, in order. -/
theorem drawNodesLoop_eq_map : ∀ l : List Node, drawNodesLoop l = l.map Node.draw
  | [] => rfl
  | n :: l => by rw [drawNodesLoop, drawNodesLoop_eq_map l, List.map_cons]

/-- Claim C5: `Mesh.draw` emits one line call per edge in edge order, followed
by one circle call per node in node order; the first block is all line calls
and the second all circle calls, so every line call precedes every circle
call. -/
theorem mesh_draw_order (m : Mesh) :
    Mesh.draw m = m.edges.map (Edge.draw m.nodes) ++ m.nodes.map Node.draw
    ∧ (m.edges.map (Edge.draw m.nodes)).all DrawCmd.isLine = true
    ∧ (m.nodes.map Node.draw).all DrawCmd.isCircle = true := by
  refine ⟨by rw [Mesh.draw, drawEdgesLoop_eq_map, drawNodesLoop_eq_map], ?_, ?_⟩
  · simp only [List.all_eq_true, List.mem_map]
    rintro c ⟨e, _, rfl⟩
    rfl
  · simp only [List.all_eq_true, List.mem_map]
    rintro c ⟨n, _, rfl⟩
    rfl

/-! ### C6: the pressed-state mousemove behaviour -/

/-- Claim C6: while pressed, a mousemove with delta (dx, dy) rotates the mesh
by `dx·π/180` about Y then by `dy·π/180` about X, exactly once each and in that
order, then clears the canvas and redraws the (rotated) mesh; the stored
pointer position becomes the event position. -/
theorem mousemove_pressed (s : AppState) (pos : ℝ × ℝ) (h : s.MOUSE_IS_PRESSED = true) :
    mousemove pos s =
      ({ s with
          cube3D := Mesh.rotateX ((pos.2 - s.pMousePos.2) * (Real.pi / 180))
            (Mesh.rotateY ((pos.1 - s.pMousePos.1) * (Real.pi / 180)) s.cube3D),
          pMousePos := pos },
        Effect.rotateYCall ((pos.1 - s.pMousePos.1) * (Real.pi / 180)) ::
        Effect.rotateXCall ((pos.2 - s.pMousePos.2) * (Real.pi / 180)) ::
        Effect.clearRect ::
        (Mesh.draw (Mesh.rotateX ((pos.2 - s.pMousePos.2) * (Real.pi / 180))
          (Mesh.rotateY ((pos.1 - s.pMousePos.1) * (Real.pi / 180)) s.cube3D))).map
            Effect.emit) := by
  simp [mousemove, h]

/-- Witness for C6: the spec's drag scenario, from (100,100) to (110,105) on an
empty mesh, produces exactly `rotateY(10·π/180)` then `rotateX(5·π/180)` then a
clear (the empty mesh redraw emits no draw calls). -/
theorem mousemove_pressed_witness :
    (mousemove (110, 105) ⟨true, (100, 100), ⟨[], []⟩⟩).2 =
      [Effect.rotateYCall (10 * (Real.pi / 180)),
        Effect.rotateXCall (5 * (Real.pi / 180)), Effect.clearRect] := by
  rw [mousemove_pressed ⟨true, (100, 100), ⟨[], []⟩⟩ (110, 105) rfl]
  norm_num [Mesh.draw, Mesh.rotateX, Mesh.rotateY, rotXLoop, rotYLoop,
    drawEdgesLoop, drawNodesLoop]

/-! ### C9: the previous pointer position is stored on every move -/

/-- Claim C9: every mousemove stores the event position into `pMousePos`,
pressed or not; consequently a move, then a press, then a move at the same
position yields zero rotation angles on that first pressed move. -/
theorem mousemove_updates_prev (s : AppState) (pos : ℝ × ℝ) :
    ((mousemove pos s).1).pMousePos = pos
    ∧ ∃ tail : List Effect,
        (mousemove pos (mousedown (mousemove pos s).1)).2
          = Effect.rotateYCall 0 :: Effect.rotateXCall 0 :: tail := by
  by_cases hP : s.MOUSE_IS_PRESSED
  · exact ⟨by simp [mousemove, hP], ⟨_, by simp [mousemove, mousedown, hP]; rfl⟩⟩
  · exact ⟨by simp [mousemove, hP], ⟨_, by simp [mousemove, mousedown, hP]; rfl⟩⟩

/-! ### C7: rotateY and rotateX do not commute -/

/-- Claim C7: there are angles and a mesh for which `rotateY(a)` then
`rotateX(b)` differs from `rotateX(b)` then `rotateY(a)`. -/
theorem rotate_noncomm :
    ∃ (a b : ℝ) (m : Mesh),
      Mesh.rotateX b (Mesh.rotateY a m) ≠ Mesh.rotateY a (Mesh.rotateX b m) := by
  refine ⟨Real.pi / 2, Real.pi / 2, ⟨[⟨1, 0, 0⟩], []⟩, fun h => ?_⟩
  have hy := congrArg (fun m : Mesh => (m.nodes.getD 0 ⟨0, 0, 0⟩).y) h
  simp [Mesh.rotateX, Mesh.rotateY, rotXLoop, rotYLoop, rotXPoint, rotYPoint,
    Real.cos_pi_div_two, Real.sin_pi_div_two] at hy

/-! ### C10: same-axis rotations compose additively -/

/-- Composing two Y-rotations on one node adds the angles. -/
theorem rotYPoint_comp (a b : ℝ) (n : Node) :
    rotYPoint b (rotYPoint a n) = rotYPoint (a + b) n := by
  ext <;> simp [rotYPoint, Real.cos_add, Real.sin_add] <;> ring

/-- Composing two X-rotations on one node adds the angles. -/
theorem rotXPoint_comp (a b : ℝ) (n : Node) :
    rotXPoint b (rotXPoint a n) = rotXPoint (a + b) n := by
  ext <;> simp [rotXPoint, Real.cos_add, Real.sin_add] <;> ring

/-- Composing two Y-rotations on a mesh adds the angles. -/
theorem rotateY_rotateY (a b : ℝ) (m : Mesh) :
    Mesh.rotateY b (Mesh.rotateY a m) = Mesh.rotateY (a + b) m := by
  simp only [Mesh.rotateY, rotYLoop_eq_map, List.map_map]
  congr 1
  exact List.map_congr_left fun n _ => rotYPoint_comp a b n

/-- Composing two X-rotations on a mesh adds the angles. -/
theorem rotateX_rotateX (a b : ℝ) (m : Mesh) :
    Mesh.rotateX b (Mesh.rotateX a m) = Mesh.rotateX (a + b) m := by
  simp only [Mesh.rotateX, rotXLoop_eq_map, List.map_map]
  congr 1
  exact List.map_congr_left fun n _ => rotXPoint_comp a b n

/-- Claim C10: `rotateY(a)` then `rotateY(b)` equals `rotateY(a+b)`, and
`rotateX(a)` then `rotateX(b)` equals `rotateX(a+b)`, on every mesh. -/
theorem rotate_additive (m : Mesh) (a b : ℝ) :
    Mesh.rotateY b (Mesh.rotateY a m) = Mesh.rotateY (a + b) m
    ∧ Mesh.rotateX b (Mesh.rotateX a m) = Mesh.rotateX (a + b) m :=
  ⟨rotateY_rotateY a b m, rotateX_rotateX a b m⟩

/-! ### C8: a full turn about Y is the identity -/

/-- A zero-angle Y-rotation fixes every node. -/
theorem rotYPoint_zero (n : Node) : rotYPoint 0 n = n := by
  ext <;> simp [rotYPoint]

/-- A full-turn Y-rotation fixes every node. -/
theorem rotYPoint_two_pi (n : Node) : rotYPoint (2 * Real.pi) n = n := by
  ext <;> simp [rotYPoint, Real.cos_two_pi, Real.sin_two_pi]

/-- A zero-angle Y-rotation fixes the mesh. -/
theorem rotateY_zero (m : Mesh) : Mesh.rotateY 0 m = m := by
  have hnodes : m.nodes.map (rotYPoint 0) = m.nodes := by
    rw [List.map_congr_left fun n _ => rotYPoint_zero n]
    simp
  simp only [Mesh.rotateY, rotYLoop_eq_map, hnodes]

/-- Iterating `rotateY θ` k times is a single rotation by `k·θ`. -/
theorem rotateY_iterate (θ : ℝ) : ∀ (k : ℕ) (m : Mesh),
    (Mesh.rotateY θ)^[k] m = Mesh.rotateY ((k : ℝ) * θ) m
  | 0, m => by
    rw [Function.iterate_zero_apply]
    rw [show ((0 : ℕ) : ℝ) * θ = 0 by norm_num, rotateY_zero]
  | k + 1, m => by
    rw [Function.iterate_succ_apply, rotateY_iterate θ k, rotateY_rotateY]
    congr 1
    push_cast
    ring

/-- Claim C8: for every mesh, positive N and angle θ with N·θ = 2π, applying
`rotateY(θ)` N times returns the mesh to its original state. -/
theorem rotateY_full_turn (m : Mesh) (N : ℕ) (θ : ℝ) (_hN : 0 < N)
    (h : (N : ℝ) * θ = 2 * Real.pi) :
    (Mesh.rotateY θ)^[N] m = m := by
  rw [rotateY_iterate θ N m, h]
  have hnodes : m.nodes.map (rotYPoint (2 * Real.pi)) = m.nodes := by
    rw [List.map_congr_left fun n _ => rotYPoint_two_pi n]
    simp
  simp only [Mesh.rotateY, rotYLoop_eq_map, hnodes]

/-- Witness for C8: one application of `rotateY(2π)` fixes a one-node mesh. -/
theorem rotateY_full_turn_witness :
    (Mesh.rotateY (2 * Real.pi))^[1] (⟨[⟨1, 2, 3⟩], []⟩ : Mesh)
      = (⟨[⟨1, 2, 3⟩], []⟩ : Mesh) :=
  rotateY_full_turn ⟨[⟨1, 2, 3⟩], []⟩ 1 (2 * Real.pi) (by norm_num) (by norm_num)

end ThreeD
